import Mathlib

/-!
# Verification of the HT_LiquidityDashboard data pipeline

Shallow embedding of `scripts/fetch_data.py`: the Treasury TGA fetcher's
record processing (category filter, numeric cleaning, close/open selection,
dropna, deduplication, date sort), the merge/fallback/forward-fill engine of
`main`, the net-liquidity formula, and the record-oriented JSON snapshot.

Modelling conventions:
* monetary values are rationals (`ℚ`), modelling the exact float arithmetic
  of the script on the inputs considered;
* calendar dates are naturals encoded as `yyyymmdd` (strictly increasing in
  `ℕ` exactly when increasing as dates), and `strftime("%Y-%m-%d")` is the
  digit-wise formatter `formatDate`;
* a pandas column of floats-with-NaN is `Option ℚ` (`none` = NaN);
* `pd.to_numeric(..., errors="coerce")` after comma removal is the decimal
  parser `cleanNumeric`, returning `none` where pandas yields NaN;
* `sys.exit(1)` with no file written is `Except.error 1`; a successful run
  returning the rows written to `public/data.json` is `Except.ok`.
-/

namespace LiquidityDashboard

/-- One raw record of the Treasury `operating_cash_balance` API `data`
array, with the fields requested by the script.  Balance fields arrive as
strings (possibly empty, possibly with thousands separators). -/
structure TreasuryRecord where
  record_date : Nat
  account_type : String
  open_today_bal : String
  close_today_bal : String
deriving DecidableEq, Repr

/-- A row of the FRED frame returned by `fetch_fred_data` after renaming:
the five columns, each possibly NaN on a given date. -/
structure FredRow where
  fedAssets : Option ℚ
  rrp : Option ℚ
  tgaWeekly : Option ℚ
  liquidityFacilities : Option ℚ
  loansHeld : Option ℚ
deriving DecidableEq, Repr

/-- A row of `merged_df` in `main`: the FRED columns plus `TGA_Daily` and
`Final_TGA`. -/
structure MRow where
  fedAssets : Option ℚ
  rrp : Option ℚ
  tgaWeekly : Option ℚ
  liquidityFacilities : Option ℚ
  loansHeld : Option ℚ
  tgaDaily : Option ℚ
  finalTGA : Option ℚ
deriving DecidableEq, Repr

/-- A row of `output_df`: the seven published columns (`Final_TGA` renamed
to `TGA_Daily`). -/
structure OutRow where
  date : Nat
  netLiquidity : ℚ
  fedAssets : ℚ
  rrp : ℚ
  tgaDaily : ℚ
  liquidityFacilities : ℚ
  loansHeld : ℚ
deriving DecidableEq, Repr

/-! ## Numeric cleaning (`fetch_treasury_tga`, steps 2-3) -/

/-- `str.replace(",", "")`. -/
def stripCommas (s : String) : String :=
  String.mk (s.data.filter (fun c => c ≠ ','))

/-- Numeric value of a digit list, most significant first. -/
def natOfDigits (l : List Char) : Nat :=
  l.foldl (fun a c => a * 10 + (c.toNat - 48)) 0

/-- Fractional value of the digits after the decimal point. -/
def fracOfDigits (l : List Char) : ℚ :=
  (natOfDigits l : ℚ) / (10 : ℚ) ^ l.length

/-- Parse an unsigned decimal literal (`123`, `123.45`, `.5`, `5.`);
anything else is `none`. -/
def parseUnsigned (l : List Char) : Option ℚ :=
  let ip := l.takeWhile Char.isDigit
  match l.dropWhile Char.isDigit with
  | [] => if ip.isEmpty then none else some ((natOfDigits ip : ℚ))
  | '.' :: fp =>
      if fp.all Char.isDigit && !(ip.isEmpty && fp.isEmpty) then
        some ((natOfDigits ip : ℚ) + fracOfDigits fp)
      else none
  | _ => none

/-- Parse a possibly-signed decimal literal. -/
def parseDecimal (s : String) : Option ℚ :=
  match s.data with
  | '-' :: rest => (parseUnsigned rest).map (fun q => -q)
  | l => parseUnsigned l

/-- `pd.to_numeric(x.astype(str).str.replace(",", ""), errors="coerce")`:
remove thousands separators, then parse; unparsable (empty, null, text)
becomes `none` (NaN). -/
def cleanNumeric (s : String) : Option ℚ :=
  parseDecimal (stripCommas s)

/-! ## Category filter (`fetch_treasury_tga`, step 1) -/

/-- Does `hay` start with `pat`? -/
def startsWithL : List Char → List Char → Bool
  | _, [] => true
  | [], _ :: _ => false
  | h :: hs, p :: ps => h == p && startsWithL hs ps

/-- Does `hay` contain `pat` as a contiguous sublist? -/
def containsL : List Char → List Char → Bool
  | [], pat => pat.isEmpty
  | h :: t, pat => startsWithL (h :: t) pat || containsL t pat

/-- ASCII lower-casing of one character (`case=False` comparison). -/
def lowerChar (c : Char) : Char :=
  if 'A' ≤ c && c ≤ 'Z' then Char.ofNat (c.toNat + 32) else c

/-- `df["account_type"].str.contains("Treasury General Account",
case=False)`. -/
def isTGAAccount (s : String) : Bool :=
  containsL (s.data.map lowerChar) ("Treasury General Account".data.map lowerChar)

/-! ## Smart selection, dropna, dedup, sort (`fetch_treasury_tga`, 3-6) -/

/-- Left-biased column coalescing: `a.fillna(b)` at one cell. -/
def fillna (a b : Option ℚ) : Option ℚ :=
  match a with
  | some x => some x
  | none => b

/-- `df["TGA_Daily"] = df["close_clean"].fillna(df["open_clean"])`. -/
def selectBalance (r : TreasuryRecord) : Option ℚ :=
  fillna (cleanNumeric r.close_today_bal) (cleanNumeric r.open_today_bal)

/-- Category filter, cleaning, smart selection and
`dropna(subset=["TGA_Daily"])` applied record-wise: the surviving
`(date, value)` pairs in API order. -/
def selectedRecords (rows : List TreasuryRecord) : List (Nat × ℚ) :=
  (rows.filter (fun r => isTGAAccount r.account_type)).filterMap
    (fun r => (selectBalance r).map (fun v => (r.record_date, v)))

/-- `groupby("date").first()` value choice: keep the first pair for each
date in list order, tracking the dates already seen. -/
def dedupGo (seen : List Nat) : List (Nat × ℚ) → List (Nat × ℚ)
  | [] => []
  | (d, v) :: t =>
      if d ∈ seen then dedupGo seen t
      else (d, v) :: dedupGo (d :: seen) t

/-- Keep exactly one pair per date: the first occurrence in list order. -/
def dedupFirst (l : List (Nat × ℚ)) : List (Nat × ℚ) :=
  dedupGo [] l

/-- The key-ordering used to sort the series by date. -/
def keyLE (a b : Nat × ℚ) : Prop := a.1 ≤ b.1

instance : DecidableRel keyLE := fun a b => Nat.decLe a.1 b.1

instance : IsTotal (Nat × ℚ) keyLE := ⟨fun a b => Nat.le_total a.1 b.1⟩

instance : IsTrans (Nat × ℚ) keyLE := ⟨fun _ _ _ => Nat.le_trans⟩

/-- `set_index("date").sort_index()`. -/
def sortByDate (l : List (Nat × ℚ)) : List (Nat × ℚ) :=
  l.insertionSort keyLE

/-- The whole record-processing of `fetch_treasury_tga` on the `data`
array of the API response: filter to the Treasury General Account, clean
and select close-else-open, drop unparsable records, keep the first record
per date, and sort by date. -/
def fetchTreasuryProcess (rows : List TreasuryRecord) : List (Nat × ℚ) :=
  sortByDate (dedupFirst (selectedRecords rows))

/-! ## Merge, fallback and fill (`main`, steps 2-3) -/

/-- Outer join of the FRED frame and the TGA series on the date index,
fuel-recursive merge of two date-sorted association lists (the fuel is an
upper bound on the total length, making the definition structurally
recursive and hence executable). -/
def outerJoinGo : Nat → List (Nat × FredRow) → List (Nat × ℚ) →
    List (Nat × (Option FredRow × Option ℚ))
  | 0, _, _ => []
  | _ + 1, [], [] => []
  | n + 1, [], (e, v) :: t => (e, (none, some v)) :: outerJoinGo n [] t
  | n + 1, (d, r) :: f, [] => (d, (some r, none)) :: outerJoinGo n f []
  | n + 1, (d, r) :: f, (e, v) :: t =>
      if d < e then (d, (some r, none)) :: outerJoinGo n f ((e, v) :: t)
      else if e < d then (e, (none, some v)) :: outerJoinGo n ((d, r) :: f) t
      else (d, (some r, some v)) :: outerJoinGo n f t

/-- `fred_df.join(tga_df, how="outer")` on sorted date indices. -/
def outerJoin (f : List (Nat × FredRow)) (t : List (Nat × ℚ)) :
    List (Nat × (Option FredRow × Option ℚ)) :=
  outerJoinGo (f.length + t.length) f t

/-- A joined row: the FRED columns (all NaN when the date is absent from
the FRED frame), `TGA_Daily` from the join, and
`Final_TGA = TGA_Daily` (line `merged_df["Final_TGA"] =
merged_df["TGA_Daily"]`). -/
def joinRow (fr : Option FredRow) (tg : Option ℚ) : MRow :=
  let f := fr.getD ⟨none, none, none, none, none⟩
  { fedAssets := f.fedAssets
    rrp := f.rrp
    tgaWeekly := f.tgaWeekly
    liquidityFacilities := f.liquidityFacilities
    loansHeld := f.loansHeld
    tgaDaily := tg
    finalTGA := tg }

/-- The fallback branch's row (`tga_df` empty): FRED columns only, and
`Final_TGA = TGA_Weekly * 1000` (billions to millions). -/
def weeklyRow (f : FredRow) : MRow :=
  { fedAssets := f.fedAssets
    rrp := f.rrp
    tgaWeekly := f.tgaWeekly
    liquidityFacilities := f.liquidityFacilities
    loansHeld := f.loansHeld
    tgaDaily := none
    finalTGA := f.tgaWeekly.map (fun q => q * 1000) }

/-- Forward fill of the `Final_TGA` column only
(`merged_df["Final_TGA"].ffill()`), carrying the last seen value. -/
def ffillFinalGo (acc : Option ℚ) : List (Nat × MRow) → List (Nat × MRow)
  | [] => []
  | (d, r) :: t =>
      let v := fillna r.finalTGA acc
      (d, { r with finalTGA := v }) :: ffillFinalGo v t

/-- `merged_df["Final_TGA"] = merged_df["Final_TGA"].ffill()`. -/
def ffillFinal (l : List (Nat × MRow)) : List (Nat × MRow) :=
  ffillFinalGo none l

/-- One step of whole-frame forward fill: each column takes its own value
when present, else the carried value. -/
def fillRow (acc r : MRow) : MRow :=
  { fedAssets := fillna r.fedAssets acc.fedAssets
    rrp := fillna r.rrp acc.rrp
    tgaWeekly := fillna r.tgaWeekly acc.tgaWeekly
    liquidityFacilities := fillna r.liquidityFacilities acc.liquidityFacilities
    loansHeld := fillna r.loansHeld acc.loansHeld
    tgaDaily := fillna r.tgaDaily acc.tgaDaily
    finalTGA := fillna r.finalTGA acc.finalTGA }

/-- Forward fill of every column, carrying the last filled row. -/
def ffillGo (acc : MRow) : List (Nat × MRow) → List (Nat × MRow)
  | [] => []
  | (d, r) :: t =>
      let r2 := fillRow acc r
      (d, r2) :: ffillGo r2 t

/-- `merged_df.ffill()` (line 119, first half). -/
def ffillAll (l : List (Nat × MRow)) : List (Nat × MRow) :=
  ffillGo ⟨none, none, none, none, none, none, none⟩ l

/-- `dropna()` row test in the daily branch: all seven columns of
`merged_df` must be non-NaN. -/
def rowComplete1 (r : MRow) : Bool :=
  r.fedAssets.isSome && r.rrp.isSome && r.tgaWeekly.isSome &&
    r.liquidityFacilities.isSome && r.loansHeld.isSome &&
    r.tgaDaily.isSome && r.finalTGA.isSome

/-- `dropna()` row test in the weekly-fallback branch: the frame has no
`TGA_Daily` column there, so six columns must be non-NaN. -/
def rowComplete2 (r : MRow) : Bool :=
  r.fedAssets.isSome && r.rrp.isSome && r.tgaWeekly.isSome &&
    r.liquidityFacilities.isSome && r.loansHeld.isSome && r.finalTGA.isSome

/-! ## Net liquidity and the published rows (`main`, steps 4-5) -/

/-- The net-liquidity formula of the script, operand for operand:
`Fed_Assets - Final_TGA - RRP * 1000 + Liquidity_Facilities +
Loans_Held`, where `rrp` is the raw FRED `RRPONTSYD` value (billions)
and every other operand is already in millions. -/
def netLiquidityCalc (fedAssets finalTGA rrp liquidityFacilities
    loansHeld : ℚ) : ℚ :=
  fedAssets - finalTGA - rrp * 1000 + liquidityFacilities + loansHeld

/-- Build a published row from a complete merged row: compute
`Net_Liquidity`, keep `RRP` raw, and publish `Final_TGA` under the name
`TGA_Daily` (the final `rename`). -/
def mkOut (d : Nat) (r : MRow) : OutRow :=
  let fa := r.fedAssets.getD 0
  let rp := r.rrp.getD 0
  let lf := r.liquidityFacilities.getD 0
  let lh := r.loansHeld.getD 0
  let ft := r.finalTGA.getD 0
  { date := d
    netLiquidity := netLiquidityCalc fa ft rp lf lh
    fedAssets := fa
    rrp := rp
    tgaDaily := ft
    liquidityFacilities := lf
    loansHeld := lh }

/-- Steps 2-5 of `main` after the fatal-absence check: branch on whether
the daily TGA series is empty, join / substitute, forward fill, drop
incomplete rows, and build the published rows in date order. -/
def mergePipeline (tga : List (Nat × ℚ)) (fred : List (Nat × FredRow)) :
    List OutRow :=
  if tga.isEmpty then
    let m := ffillAll (fred.map (fun p => (p.1, weeklyRow p.2)))
    (m.filter (fun p => rowComplete2 p.2)).map (fun p => mkOut p.1 p.2)
  else
    let j := (outerJoin fred tga).map (fun p => (p.1, joinRow p.2.1 p.2.2))
    let m := ffillAll (ffillFinal j)
    (m.filter (fun p => rowComplete1 p.2)).map (fun p => mkOut p.1 p.2)

/-- `main` on already-fetched data: if the FRED frame is empty the run
exits with status 1 and writes nothing (`Except.error 1`); otherwise it
produces the rows written to `public/data.json`. -/
def mainRun (tga : List (Nat × ℚ)) (fred : List (Nat × FredRow)) :
    Except Nat (List OutRow) :=
  if fred.isEmpty then Except.error 1
  else Except.ok (mergePipeline tga fred)

/-- The full pipeline from the raw Treasury API records. -/
def runFromRaw (raw : List TreasuryRecord) (fred : List (Nat × FredRow)) :
    Except Nat (List OutRow) :=
  mainRun (fetchTreasuryProcess raw) fred

/-- The process exit status of a run. -/
def exitCode (tga : List (Nat × ℚ)) (fred : List (Nat × FredRow)) : Nat :=
  match mainRun tga fred with
  | Except.error c => c
  | Except.ok _ => 0

/-- The file written by a run, `none` when the run aborts before the
`to_json` call. -/
def writtenFile (tga : List (Nat × ℚ)) (fred : List (Nat × FredRow)) :
    Option (List OutRow) :=
  (mainRun tga fred).toOption

/-- The state of `public/data.json` after a run, given its prior
contents: overwritten on success, untouched on abort. -/
def snapshotAfter (prior : List OutRow) (tga : List (Nat × ℚ))
    (fred : List (Nat × FredRow)) : List OutRow :=
  (writtenFile tga fred).getD prior

/-! ## Serialization (`strftime("%Y-%m-%d")` and `to_json`) -/

/-- The decimal digit character of `n % 10`. -/
def digitChar (n : Nat) : Char :=
  match n % 10 with
  | 0 => '0' | 1 => '1' | 2 => '2' | 3 => '3' | 4 => '4'
  | 5 => '5' | 6 => '6' | 7 => '7' | 8 => '8' | _ => '9'

/-- `dt.strftime("%Y-%m-%d")` on a `yyyymmdd`-encoded date: the four year
digits, a dash, the two month digits, a dash, the two day digits. -/
def formatDate (n : Nat) : String :=
  String.mk [digitChar (n / 10000000), digitChar (n / 1000000),
    digitChar (n / 100000), digitChar (n / 10000), '-',
    digitChar (n / 1000), digitChar (n / 100), '-',
    digitChar (n / 10), digitChar n]

/-- Shape test for an ISO calendar date string `YYYY-MM-DD`: ten
characters, dashes at positions 4 and 7, digits everywhere else, and no
time component. -/
def isoDateShape (s : String) : Bool :=
  s.data.length == 10 &&
    s.data.getD 4 ' ' == '-' && s.data.getD 7 ' ' == '-' &&
    ([0, 1, 2, 3, 5, 6, 8, 9].all (fun i => (s.data.getD i ' ').isDigit))

/-- A JSON scalar of the snapshot: a string or a number. -/
inductive JVal where
  | str (s : String)
  | num (q : ℚ)
deriving DecidableEq, Repr

/-- The key-value pairs of one record emitted by
`to_json(orient="records")`: the seven published columns in frame column
order, numeric values passed through unchanged. -/
def recordPairs (r : OutRow) : List (String × JVal) :=
  [("date", JVal.str (formatDate r.date)),
   ("Net_Liquidity", JVal.num r.netLiquidity),
   ("Fed_Assets", JVal.num r.fedAssets),
   ("RRP", JVal.num r.rrp),
   ("TGA_Daily", JVal.num r.tgaDaily),
   ("Liquidity_Facilities", JVal.num r.liquidityFacilities),
   ("Loans_Held", JVal.num r.loansHeld)]

/-- The JSON array of records written to `public/data.json`. -/
def toJson (rows : List OutRow) : List (List (String × JVal)) :=
  rows.map recordPairs

/-- Deterministic rendering of a rational (numerator and denominator),
modelling the fixed numeral rendering of the serializer. -/
def renderQ (q : ℚ) : String :=
  toString q.num ++ "/" ++ toString q.den

/-- Render one JSON scalar. -/
def renderJVal : JVal → String
  | JVal.str s => "\"" ++ s ++ "\""
  | JVal.num q => renderQ q

/-- Render one key-value pair. -/
def renderPair (p : String × JVal) : String :=
  "\"" ++ p.1 ++ "\":" ++ renderJVal p.2

/-- Render one record object. -/
def renderRecord (r : List (String × JVal)) : String :=
  "\x7b" ++ String.intercalate "," (r.map renderPair) ++ "\x7d"

/-- Render the whole array of records. -/
def renderRecords (l : List (List (String × JVal))) : String :=
  "[" ++ String.intercalate "," (l.map renderRecord) ++ "]"

/-- The byte content produced by a run: the serialized snapshot on
success, the exit status on abort. -/
def serializeRun (tga : List (Nat × ℚ)) (fred : List (Nat × FredRow)) :
    String :=
  match mainRun tga fred with
  | Except.error c => "exit " ++ toString c
  | Except.ok out => renderRecords (toJson out)

/-- Floor of a rational as an integer. -/
def ratFloor (q : ℚ) : ℤ :=
  Int.fdiv q.num q.den

/-- Rounding to two decimal places (round half up).  Modelled from the
spec: the script itself performs no rounding before `to_json`; this
function states what "rounded to exactly 2 decimal places" means so the
claim can be tested against the published values. -/
def roundTo2 (q : ℚ) : ℚ :=
  ((ratFloor (q * 100 + 1 / 2) : ℤ) : ℚ) / 100

deriving instance DecidableEq for Except

/-- The seven keys of every emitted record, in frame column order. -/
def outputKeys : List String :=
  ["date", "Net_Liquidity", "Fed_Assets", "RRP", "TGA_Daily",
   "Liquidity_Facilities", "Loans_Held"]

/-! ## Ordering lemmas -/

/-- Keys produced by `dedupGo` avoid the already-seen dates. -/
theorem dedupGo_keys_not_seen (l : List (Nat × ℚ)) :
    ∀ (seen : List Nat) (p : Nat × ℚ), p ∈ dedupGo seen l → p.1 ∉ seen := by
  induction l with
  | nil => intro seen p h; simp [dedupGo] at h
  | cons q t ih =>
      intro seen p h
      obtain ⟨d, v⟩ := q
      by_cases hd : d ∈ seen
      · simp only [dedupGo, if_pos hd] at h
        exact ih seen p h
      · simp only [dedupGo, if_neg hd, List.mem_cons] at h
        rcases h with h | h
        · subst h; exact hd
        · have := ih (d :: seen) p h
          intro hc
          exact this (List.mem_cons_of_mem _ hc)

/-- The dates kept by `dedupGo` are pairwise distinct. -/
theorem dedupGo_keys_nodup (l : List (Nat × ℚ)) :
    ∀ seen : List Nat, ((dedupGo seen l).map Prod.fst).Nodup := by
  induction l with
  | nil => intro seen; simp [dedupGo]
  | cons q t ih =>
      intro seen
      obtain ⟨d, v⟩ := q
      by_cases hd : d ∈ seen
      · simpa [dedupGo, if_pos hd] using ih seen
      · simp only [dedupGo, if_neg hd, List.map_cons, List.nodup_cons]
        refine ⟨?_, ih (d :: seen)⟩
        intro hc
        obtain ⟨p, hp, hpd⟩ := List.mem_map.mp hc
        exact dedupGo_keys_not_seen t (d :: seen) p hp (hpd ▸ List.mem_cons_self d seen)

/-- Membership in `dedupGo`: exactly the first pair of each unseen date,
in input order. -/
theorem dedupGo_mem_iff (l : List (Nat × ℚ)) :
    ∀ (seen : List Nat) (d : Nat) (v : ℚ),
      (d, v) ∈ dedupGo seen l ↔
        d ∉ seen ∧ l.find? (fun p => p.1 == d) = some (d, v) := by
  induction l with
  | nil => intro seen d v; simp [dedupGo]
  | cons q t ih =>
      intro seen d v
      obtain ⟨e, w⟩ := q
      by_cases hde : e = d
      · subst hde
        have hfind : List.find? (fun p => p.1 == e) ((e, w) :: t) = some (e, w) :=
          List.find?_cons_of_pos t (by simp)
        rw [hfind]
        by_cases hd : e ∈ seen
        · simp only [dedupGo, if_pos hd]
          constructor
          · intro h
            exact absurd hd (dedupGo_keys_not_seen t seen (e, v) h)
          · rintro ⟨hns, -⟩; exact absurd hd hns
        · simp only [dedupGo, if_neg hd, List.mem_cons]
          constructor
          · rintro (h | h)
            · exact ⟨hd, congrArg some h.symm⟩
            · have := dedupGo_keys_not_seen t (e :: seen) (e, v) h
              exact absurd (List.mem_cons_self e seen) this
          · rintro ⟨hns, hw⟩
            exact Or.inl (Option.some_injective _ hw).symm
      · have hbeq : ¬((fun p : Nat × ℚ => p.1 == d) (e, w)) = true := by
          simp [hde]
        rw [List.find?_cons_of_neg t hbeq]
        by_cases hd : e ∈ seen
        · simp only [dedupGo, if_pos hd]
          exact ih seen d v
        · simp only [dedupGo, if_neg hd, List.mem_cons]
          constructor
          · rintro (h | h)
            · exact absurd (congrArg Prod.fst h).symm hde
            · have := (ih (e :: seen) d v).mp h
              refine ⟨?_, this.2⟩
              intro hc
              exact this.1 (List.mem_cons_of_mem _ hc)
          · rintro ⟨hns, hf⟩
            refine Or.inr ((ih (e :: seen) d v).mpr ⟨?_, hf⟩)
            intro hc
            rcases List.mem_cons.mp hc with h | h
            · exact hde h.symm
            · exact hns h

/-- The dates of the processed Treasury series are strictly increasing. -/
theorem fetchTreasuryProcess_keys_sorted (rows : List TreasuryRecord) :
    ((fetchTreasuryProcess rows).map Prod.fst).Pairwise (· < ·) := by
  have hsorted : (fetchTreasuryProcess rows).Pairwise keyLE :=
    List.sorted_insertionSort keyLE (dedupFirst (selectedRecords rows))
  have hperm : List.Perm (fetchTreasuryProcess rows)
      (dedupFirst (selectedRecords rows)) :=
    List.perm_insertionSort keyLE (dedupFirst (selectedRecords rows))
  have hnodup : ((fetchTreasuryProcess rows).map Prod.fst).Nodup :=
    ((hperm.map Prod.fst).nodup_iff).mpr
      (dedupGo_keys_nodup (selectedRecords rows) [])
  have hne : (fetchTreasuryProcess rows).Pairwise (fun a b => a.1 ≠ b.1) :=
    (List.pairwise_map.mp hnodup)
  have hlt : (fetchTreasuryProcess rows).Pairwise (fun a b => a.1 < b.1) := by
    refine (hsorted.and hne).imp ?_
    rintro a b ⟨h1, h2⟩
    exact lt_of_le_of_ne h1 h2
  exact List.pairwise_map.mpr hlt

/-- Every date in the outer join comes from one of the two inputs. -/
theorem outerJoinGo_keys_subset (n : Nat) (f : List (Nat × FredRow))
    (t : List (Nat × ℚ)) :
    ∀ p ∈ outerJoinGo n f t, p.1 ∈ f.map Prod.fst ∨ p.1 ∈ t.map Prod.fst := by
  induction n generalizing f t with
  | zero => intro p h; simp [outerJoinGo] at h
  | succ n ih =>
      intro p h
      match f, t with
      | [], [] => simp [outerJoinGo] at h
      | [], (e, v) :: t =>
          simp only [outerJoinGo, List.mem_cons] at h
          rcases h with rfl | h
          · simp
          · rcases ih [] t p h with h | h
            · simp at h
            · right
              rw [List.map_cons]
              exact List.mem_cons_of_mem _ h
      | (d, r) :: f, [] =>
          simp only [outerJoinGo, List.mem_cons] at h
          rcases h with rfl | h
          · simp
          · rcases ih f [] p h with h | h
            · left
              rw [List.map_cons]
              exact List.mem_cons_of_mem _ h
            · simp at h
      | (d, r) :: f, (e, v) :: t =>
          simp only [outerJoinGo] at h
          by_cases h1 : d < e
          · rw [if_pos h1] at h
            rcases List.mem_cons.mp h with rfl | h
            · simp
            · rcases ih f ((e, v) :: t) p h with h | h
              · left; exact List.mem_cons_of_mem _ h
              · right; exact h
          · rw [if_neg h1] at h
            by_cases h2 : e < d
            · rw [if_pos h2] at h
              rcases List.mem_cons.mp h with rfl | h
              · simp
              · rcases ih ((d, r) :: f) t p h with h | h
                · left; exact h
                · right; exact List.mem_cons_of_mem _ h
            · rw [if_neg h2] at h
              rcases List.mem_cons.mp h with rfl | h
              · simp
              · rcases ih f t p h with h | h
                · left; exact List.mem_cons_of_mem _ h
                · right; exact List.mem_cons_of_mem _ h

/-- The outer join of two date-sorted lists is date-sorted. -/
theorem outerJoinGo_keys_sorted (n : Nat) (f : List (Nat × FredRow))
    (t : List (Nat × ℚ))
    (hf : (f.map Prod.fst).Pairwise (· < ·))
    (ht : (t.map Prod.fst).Pairwise (· < ·)) :
    ((outerJoinGo n f t).map Prod.fst).Pairwise (· < ·) := by
  induction n generalizing f t with
  | zero => simp [outerJoinGo]
  | succ n ih =>
      match f, t with
      | [], [] => simp [outerJoinGo]
      | [], (e, v) :: t =>
          simp only [outerJoinGo, List.map_cons, List.pairwise_cons]
          simp only [List.map_cons, List.pairwise_cons] at ht
          refine ⟨?_, ih [] t (by simp) ht.2⟩
          intro k hk
          obtain ⟨p, hp, rfl⟩ := List.mem_map.mp hk
          rcases outerJoinGo_keys_subset n [] t p hp with h | h
          · simp at h
          · exact ht.1 _ h
      | (d, r) :: f, [] =>
          simp only [outerJoinGo, List.map_cons, List.pairwise_cons]
          simp only [List.map_cons, List.pairwise_cons] at hf
          refine ⟨?_, ih f [] hf.2 (by simp)⟩
          intro k hk
          obtain ⟨p, hp, rfl⟩ := List.mem_map.mp hk
          rcases outerJoinGo_keys_subset n f [] p hp with h | h
          · exact hf.1 _ h
          · simp at h
      | (d, r) :: f, (e, v) :: t =>
          simp only [List.map_cons, List.pairwise_cons] at hf ht
          simp only [outerJoinGo]
          by_cases h1 : d < e
          · rw [if_pos h1]
            simp only [List.map_cons, List.pairwise_cons]
            refine ⟨?_, ih f ((e, v) :: t) hf.2
              (by simp only [List.map_cons, List.pairwise_cons]; exact ht)⟩
            intro k hk
            obtain ⟨p, hp, rfl⟩ := List.mem_map.mp hk
            rcases outerJoinGo_keys_subset n f ((e, v) :: t) p hp with h | h
            · exact hf.1 _ h
            · rw [List.map_cons] at h
              rcases List.mem_cons.mp h with rfl | h
              · exact h1
              · exact lt_trans h1 (ht.1 _ h)
          · rw [if_neg h1]
            by_cases h2 : e < d
            · rw [if_pos h2]
              simp only [List.map_cons, List.pairwise_cons]
              refine ⟨?_, ih ((d, r) :: f) t
                (by simp only [List.map_cons, List.pairwise_cons]; exact hf) ht.2⟩
              intro k hk
              obtain ⟨p, hp, rfl⟩ := List.mem_map.mp hk
              rcases outerJoinGo_keys_subset n ((d, r) :: f) t p hp with h | h
              · rw [List.map_cons] at h
                rcases List.mem_cons.mp h with rfl | h
                · exact h2
                · exact lt_trans h2 (hf.1 _ h)
              · exact ht.1 _ h
            · rw [if_neg h2]
              have hde : d = e := Nat.le_antisymm (Nat.le_of_not_lt h2) (Nat.le_of_not_lt h1)
              simp only [List.map_cons, List.pairwise_cons]
              refine ⟨?_, ih f t hf.2 ht.2⟩
              intro k hk
              obtain ⟨p, hp, rfl⟩ := List.mem_map.mp hk
              rcases outerJoinGo_keys_subset n f t p hp with h | h
              · exact hf.1 _ h
              · exact hde ▸ ht.1 _ h

/-- Forward fill preserves the dates of the frame. -/
theorem ffillGo_keys (acc : MRow) (l : List (Nat × MRow)) :
    (ffillGo acc l).map Prod.fst = l.map Prod.fst := by
  induction l generalizing acc with
  | nil => simp [ffillGo]
  | cons p t ih => simp [ffillGo, ih]

/-- Forward fill of `Final_TGA` preserves the dates of the frame. -/
theorem ffillFinalGo_keys (acc : Option ℚ) (l : List (Nat × MRow)) :
    (ffillFinalGo acc l).map Prod.fst = l.map Prod.fst := by
  induction l generalizing acc with
  | nil => simp [ffillFinalGo]
  | cons p t ih => simp [ffillFinalGo, ih]

/-- Mapping a row transformer that keeps the first component fixed keeps
the key list unchanged. -/
theorem map_keyfix_keys (l : List (Nat × (Option FredRow × Option ℚ))) :
    ((l.map (fun p => (p.1, joinRow p.2.1 p.2.2))).map Prod.fst) =
      l.map Prod.fst := by
  induction l with
  | nil => rfl
  | cons p t ih => simp [ih]

/-- The published dates are the keys of the filtered merged frame. -/
theorem map_mkOut_dates (l : List (Nat × MRow)) :
    ((l.map (fun p => mkOut p.1 p.2)).map OutRow.date) = l.map Prod.fst := by
  induction l with
  | nil => rfl
  | cons p t ih => simp [ih, mkOut]

/-- The published dates of `mergePipeline` are strictly increasing
whenever the two fetched series are date-sorted. -/
theorem mergePipeline_dates_sorted (tga : List (Nat × ℚ))
    (fred : List (Nat × FredRow))
    (hf : (fred.map Prod.fst).Pairwise (· < ·))
    (ht : (tga.map Prod.fst).Pairwise (· < ·)) :
    ((mergePipeline tga fred).map OutRow.date).Pairwise (· < ·) := by
  have step : ∀ (l : List (Nat × MRow)) (q : Nat × MRow → Bool),
      (l.map Prod.fst).Pairwise (· < ·) →
      ((((l.filter q).map (fun p => mkOut p.1 p.2)).map OutRow.date)).Pairwise
        (· < ·) := by
    intro l q hl
    rw [map_mkOut_dates]
    have hsub : (l.filter q).Sublist l := List.filter_sublist l
    exact hl.sublist (hsub.map Prod.fst)
  unfold mergePipeline
  by_cases hempty : tga.isEmpty
  · rw [if_pos hempty]
    refine step _ _ ?_
    rw [show ffillAll = ffillGo ⟨none, none, none, none, none, none, none⟩ from rfl]
    rw [ffillGo_keys, List.map_map]
    exact hf
  · rw [if_neg hempty]
    refine step _ _ ?_
    rw [show ffillAll = ffillGo ⟨none, none, none, none, none, none, none⟩ from rfl,
      show ffillFinal = ffillFinalGo none from rfl]
    rw [ffillGo_keys, ffillFinalGo_keys, map_keyfix_keys]
    exact outerJoinGo_keys_sorted (fred.length + tga.length) fred tga hf ht

end LiquidityDashboard

namespace LiquidityDashboard

/-! ## Claim theorems -/

/-- C1: the derived Net Liquidity value equals
`Assets − CashBalance − ReverseRepo + LendingFacilities + LoansHeld` with
all five operands in the same canonical unit (millions; the raw `RRP`
operand is converted by the factor 1000 inside the formula), and for
canonical operand values A=1000, TGA=100, RRP=50, Facilities=10, Held=5
the pipeline publishes Net Liquidity 865. -/
theorem c1_net_liquidity_formula :
    (∀ A T Rc F H : ℚ,
      netLiquidityCalc A T (Rc / 1000) F H = A - T - Rc + F + H) ∧
    mainRun [(20230101, 100)]
        [(20230101, ⟨some 1000, some (50 / 1000), some 0, some 10, some 5⟩)] =
      Except.ok [⟨20230101, 865, 1000, 50 / 1000, 100, 10, 5⟩] := by
  constructor
  · intro A T Rc F H
    unfold netLiquidityCalc
    ring
  · norm_num [mainRun, mergePipeline, outerJoin, outerJoinGo, joinRow,
      ffillFinal, ffillFinalGo, ffillAll, ffillGo, fillRow, fillna,
      rowComplete1, mkOut, netLiquidityCalc]

/-- C2 counterexample: with the primary daily TGA series holding 10 on
date 1 and 30 on date 3, and the weekly fallback holding 99 on date 2,
the reconciled `TGA_Daily` value published for date 2 is 10 (the
forward-filled primary value from date 1), not the fallback's value at
date 2 (99 raw, or 99000 in canonical millions), refuting the claimed
per-date fallback substitution. -/
theorem c2_counterexample :
    ((mainRun [(1, 10), (3, 30)]
        [(1, ⟨some 1, some 0, some 7, some 0, some 0⟩),
         (2, ⟨some 1, some 0, some 99, some 0, some 0⟩),
         (3, ⟨some 1, some 0, some 8, some 0, some 0⟩)]).toOption.getD []).map
      (fun r => (r.date, r.tgaDaily)) = [(1, 10), (2, 10), (3, 30)] ∧
    (10 : ℚ) ≠ 99 ∧ (10 : ℚ) ≠ 99 * 1000 := by
  refine ⟨?_, by norm_num, by norm_num⟩
  norm_num [mainRun, mergePipeline, outerJoin, outerJoinGo, joinRow,
    ffillFinal, ffillFinalGo, ffillAll, ffillGo, fillRow, fillna,
    rowComplete1, mkOut, netLiquidityCalc, Except.toOption, Option.getD]

/-- C2 amended: the weekly fallback is used only when the primary daily
TGA series is entirely empty (then `Final_TGA = TGA_Weekly * 1000` on
every date); when the primary is non-empty the reconciled column is the
primary forward-filled, so on a date where the primary is missing the
value is the most recent prior primary value, and the fallback's per-date
values are ignored. -/
theorem c2_amended_wholesale_fallback (p1 p3 f1 f2 f3 : ℚ) :
    ((mergePipeline [(1, p1), (3, p3)]
        [(1, ⟨some 1, some 0, some f1, some 0, some 0⟩),
         (2, ⟨some 1, some 0, some f2, some 0, some 0⟩),
         (3, ⟨some 1, some 0, some f3, some 0, some 0⟩)]).map
      (fun r => (r.date, r.tgaDaily)) = [(1, p1), (2, p1), (3, p3)]) ∧
    ((mergePipeline []
        [(1, ⟨some 1, some 0, some f1, some 0, some 0⟩),
         (2, ⟨some 1, some 0, some f2, some 0, some 0⟩),
         (3, ⟨some 1, some 0, some f3, some 0, some 0⟩)]).map
      (fun r => (r.date, r.tgaDaily)) =
      [(1, f1 * 1000), (2, f2 * 1000), (3, f3 * 1000)]) :=
  ⟨rfl, rfl⟩

/-- C3 counterexample: with a raw FRED `RRPONTSYD` value of 50 (billions)
the published `RRP` column value is 50 while the formula consumes 50000
(millions): the published Net Liquidity is -49085, which differs from the
value 865 that the five published operands would give if they were all
expressed in one canonical unit, refuting published-unit consistency. -/
theorem c3_counterexample :
    ((mainRun [(1, 100)]
        [(1, ⟨some 1000, some 50, some 0, some 10, some 5⟩)]).toOption.getD
      []).map (fun r => (r.date, r.rrp, r.netLiquidity)) =
      [(1, 50, -49085)] ∧
    (-49085 : ℚ) ≠ 1000 - 100 - 50 + 10 + 5 := by
  refine ⟨?_, by norm_num⟩
  norm_num [mainRun, mergePipeline, outerJoin, outerJoinGo, joinRow,
    ffillFinal, ffillFinalGo, ffillAll, ffillGo, fillRow, fillna,
    rowComplete1, mkOut, netLiquidityCalc, Except.toOption, Option.getD]

/-- C3 amended: the value used by the derived formula equals the raw
provider value times a fixed per-series factor into millions (1000 for
`RRP`, 1 for the others), but the published `RRP` column stays in its
native billions: on every published row the Net Liquidity relates to the
published operands by an extra factor 1000 on `RRP`. -/
theorem c3_amended_rrp_factor (tga : List (Nat × ℚ))
    (fred : List (Nat × FredRow)) (out : List OutRow)
    (hok : mainRun tga fred = Except.ok out) :
    ∀ r ∈ out, r.netLiquidity =
      r.fedAssets - r.tgaDaily - r.rrp * 1000 +
        r.liquidityFacilities + r.loansHeld := by
  have hout : out = mergePipeline tga fred := by
    unfold mainRun at hok
    by_cases h : fred.isEmpty
    · rw [if_pos h] at hok; cases hok
    · rw [if_neg h] at hok; exact (Except.ok.inj hok).symm
  subst hout
  intro r hr
  unfold mergePipeline at hr
  by_cases hempty : tga.isEmpty
  · rw [if_pos hempty] at hr
    obtain ⟨p, hp, rfl⟩ := List.mem_map.mp hr
    rfl
  · rw [if_neg hempty] at hr
    obtain ⟨p, hp, rfl⟩ := List.mem_map.mp hr
    rfl

/-- C3 amended witness at a concrete run. -/
theorem c3_amended_rrp_factor_witness :
    mainRun [(1, 100)] [(1, ⟨some 1000, some 50, some 0, some 10, some 5⟩)] =
      Except.ok [⟨1, -49085, 1000, 50, 100, 10, 5⟩] ∧
    ∀ r ∈ [(⟨1, -49085, 1000, 50, 100, 10, 5⟩ : OutRow)], r.netLiquidity =
      r.fedAssets - r.tgaDaily - r.rrp * 1000 +
        r.liquidityFacilities + r.loansHeld := by
  have hok : mainRun [(1, 100)]
      [(1, ⟨some 1000, some 50, some 0, some 10, some 5⟩)] =
      Except.ok [⟨1, -49085, 1000, 50, 100, 10, 5⟩] := by
    norm_num [mainRun, mergePipeline, outerJoin, outerJoinGo, joinRow,
      ffillFinal, ffillFinalGo, ffillAll, ffillGo, fillRow, fillna,
      rowComplete1, mkOut, netLiquidityCalc]
  exact ⟨hok, c3_amended_rrp_factor _ _ _ hok⟩

/-- C4 counterexample: the weekly `Fed_Assets` series with native
observations 0 on date 0 and 2 on date 2 is forward-filled, so the daily
value on date 1 (strictly between the observations) is 0, not the linear
interpolant 1; and the trailing date 3, strictly beyond the series' last
native observation, is published with the synthesized value 2 instead of
being excluded. -/
theorem c4_counterexample :
    ((mainRun [(0, 5), (1, 5), (2, 5), (3, 5)]
        [(0, ⟨some 0, some 0, some 1, some 0, some 0⟩),
         (2, ⟨some 2, some 0, some 1, some 0, some 0⟩)]).toOption.getD
      []).map (fun r => (r.date, r.fedAssets)) =
      [(0, 0), (1, 0), (2, 2), (3, 2)] ∧
    (0 : ℚ) ≠ (0 + 2) / 2 := by
  refine ⟨?_, by norm_num⟩
  norm_num [mainRun, mergePipeline, outerJoin, outerJoinGo, joinRow,
    ffillFinal, ffillFinalGo, ffillAll, ffillGo, fillRow, fillna,
    rowComplete1, mkOut, netLiquidityCalc, Except.toOption, Option.getD]

/-- C4 amended: series reported less often than daily are aligned by the
outer join and forward-filled, not interpolated: a daily value strictly
between two native observations equals the earlier observation's value,
and dates beyond a series' last native observation are retained with that
last value (synthesized by forward fill) whenever another series supplies
those dates; only rows before the slowest series' first observation are
dropped. -/
theorem c4_amended_forward_fill (v1 v2 t0 t1 t2 t3 : ℚ) :
    (mergePipeline [(0, t0), (1, t1), (2, t2), (3, t3)]
        [(0, ⟨some v1, some 0, some 1, some 0, some 0⟩),
         (2, ⟨some v2, some 0, some 1, some 0, some 0⟩)]).map
      (fun r => (r.date, r.fedAssets)) =
      [(0, v1), (1, v1), (2, v2), (3, v2)] :=
  rfl

end LiquidityDashboard

namespace LiquidityDashboard

/-- Helper: `digitChar` always yields a decimal digit character. -/
theorem digitChar_isDigit (n : Nat) : (digitChar n).isDigit = true := by
  unfold digitChar
  split <;> decide

/-- Helper: `formatDate` always has the ISO `YYYY-MM-DD` shape. -/
theorem formatDate_isoShape (n : Nat) : isoDateShape (formatDate n) = true := by
  simp [isoDateShape, formatDate, List.getD, digitChar_isDigit]

/-- C5 counterexample: the script rounds nothing before `to_json`: with a
`Fed_Assets` value of 1/8 (0.125) the published Net Liquidity is exactly
1/8, which is not equal to its two-decimal rounding 0.13, refuting the
claim that every published numeric value is rounded to 2 decimal
places. -/
theorem c5_counterexample :
    ((mainRun [(1, 0)]
        [(1, ⟨some (1 / 8), some 0, some 0, some 0, some 0⟩)]).toOption.getD
      []).map (fun r => r.netLiquidity) = [1 / 8] ∧
    roundTo2 (1 / 8) ≠ (1 / 8 : ℚ) := by
  constructor
  · norm_num [mainRun, mergePipeline, outerJoin, outerJoinGo, joinRow,
      ffillFinal, ffillFinalGo, ffillAll, ffillGo, fillRow, fillna,
      rowComplete1, mkOut, netLiquidityCalc, Except.toOption, Option.getD]
  · have h13 : (1 / 8 * 100 + 1 / 2 : ℚ) = 13 := by norm_num
    have hfl : ratFloor 13 = 13 := by
      unfold ratFloor
      norm_num
    rw [roundTo2, h13, hfl]
    norm_num

/-- C5 amended: every published date is an ISO calendar date string
`YYYY-MM-DD` with no time component, and every serialized record carries
the computed numeric values through unchanged — they are emitted at full
precision, not rounded to 2 decimal places. -/
theorem c5_amended_iso_dates_unrounded (tga : List (Nat × ℚ))
    (fred : List (Nat × FredRow)) (out : List OutRow)
    (_hok : mainRun tga fred = Except.ok out) :
    ∀ rec ∈ toJson out, ∃ r, r ∈ out ∧ rec = recordPairs r ∧
      rec.head? = some ("date", JVal.str (formatDate r.date)) ∧
      isoDateShape (formatDate r.date) = true := by
  intro rec hrec
  obtain ⟨r, hr, rfl⟩ := List.mem_map.mp hrec
  exact ⟨r, hr, rfl, rfl, formatDate_isoShape r.date⟩

/-- C5 amended witness at a concrete run. -/
theorem c5_amended_iso_dates_unrounded_witness :
    mainRun [(20230101, 100)]
        [(20230101, ⟨some 1000, some 0, some 0, some 10, some 5⟩)] =
      Except.ok [⟨20230101, 915, 1000, 0, 100, 10, 5⟩] ∧
    ∀ rec ∈ toJson [(⟨20230101, 915, 1000, 0, 100, 10, 5⟩ : OutRow)],
      ∃ r, r ∈ [(⟨20230101, 915, 1000, 0, 100, 10, 5⟩ : OutRow)] ∧
        rec = recordPairs r ∧
        rec.head? = some ("date", JVal.str (formatDate r.date)) ∧
        isoDateShape (formatDate r.date) = true := by
  have hok : mainRun [(20230101, 100)]
      [(20230101, ⟨some 1000, some 0, some 0, some 10, some 5⟩)] =
      Except.ok [⟨20230101, 915, 1000, 0, 100, 10, 5⟩] := by
    norm_num [mainRun, mergePipeline, outerJoin, outerJoinGo, joinRow,
      ffillFinal, ffillFinalGo, ffillAll, ffillGo, fillRow, fillna,
      rowComplete1, mkOut, netLiquidityCalc]
  exact ⟨hok, c5_amended_iso_dates_unrounded _ _ _ hok⟩

end LiquidityDashboard

namespace LiquidityDashboard

/-- C6: if the FRED fetch (the authoritative source set the formula
cannot function without) returns an entirely empty result, the run exits
with status 1, writes no output file, and leaves any prior snapshot
untouched. -/
theorem c6_fatal_absence (tga : List (Nat × ℚ)) (fred : List (Nat × FredRow))
    (hempty : fred = []) :
    exitCode tga fred = 1 ∧ writtenFile tga fred = none ∧
      ∀ prior, snapshotAfter prior tga fred = prior := by
  subst hempty
  exact ⟨rfl, rfl, fun prior => rfl⟩

/-- C6 witness at a concrete empty FRED fetch. -/
theorem c6_fatal_absence_witness :
    ([] : List (Nat × FredRow)) = [] ∧
      (exitCode [(20230101, 100)] [] = 1 ∧
        writtenFile [(20230101, 100)] [] = none ∧
        ∀ prior, snapshotAfter prior [(20230101, 100)] [] = prior) :=
  ⟨rfl, c6_fatal_absence [(20230101, 100)] [] rfl⟩

/-- C7: for every record offering both balance fields, the selected value
is the closing balance whenever it parses to a number after removing
thousands-separator commas; otherwise it is the opening balance when that
parses; and a category-matching record is dropped if and only if both
fields fail to parse. -/
theorem c7_smart_selection (r : TreasuryRecord) :
    (∀ c, cleanNumeric r.close_today_bal = some c → selectBalance r = some c) ∧
    (cleanNumeric r.close_today_bal = none →
      selectBalance r = cleanNumeric r.open_today_bal) ∧
    (selectBalance r = none ↔
      cleanNumeric r.close_today_bal = none ∧
        cleanNumeric r.open_today_bal = none) ∧
    (isTGAAccount r.account_type = true →
      (selectedRecords [r] = [] ↔
        cleanNumeric r.close_today_bal = none ∧
          cleanNumeric r.open_today_bal = none)) := by
  have hsel : selectBalance r =
      fillna (cleanNumeric r.close_today_bal) (cleanNumeric r.open_today_bal) :=
    rfl
  refine ⟨?_, ?_, ?_, ?_⟩
  · intro c hc
    rw [hsel, hc]
    rfl
  · intro hc
    rw [hsel, hc]
    rfl
  · rw [hsel]
    cases hc : cleanNumeric r.close_today_bal with
    | some c => simp [fillna]
    | none =>
        cases ho : cleanNumeric r.open_today_bal with
        | some o => simp [fillna]
        | none => simp [fillna]
  · intro hacct
    have hlist : selectedRecords [r] =
        (selectBalance r).toList.map (fun v => (r.record_date, v)) := by
      unfold selectedRecords
      rw [List.filter_cons, if_pos (by simpa using hacct)]
      cases hs : selectBalance r <;> simp [List.filterMap, hs]
    rw [hlist]
    cases hs : selectBalance r with
    | some v =>
        simp only [Option.toList, List.map_cons, List.map_nil]
        constructor
        · intro h; cases h
        · intro hboth
          have : selectBalance r = none := by
            rw [hsel, hboth.1, hboth.2]; rfl
          rw [hs] at this; cases this
    | none =>
        simp only [Option.toList, List.map_nil]
        constructor
        · intro _
          rw [hsel] at hs
          cases hc : cleanNumeric r.close_today_bal with
          | some c => rw [hc] at hs; cases hs
          | none =>
              rw [hc] at hs
              cases ho : cleanNumeric r.open_today_bal with
              | some o => rw [ho] at hs; cases hs
              | none => exact ⟨rfl, rfl⟩
        · intro _; trivial

/-- C7 witness: a record whose closing balance is textual selects the
parsed opening balance. -/
theorem c7_smart_selection_witness :
    cleanNumeric "abc" = none ∧
      selectBalance ⟨20230101, "Treasury General Account", "1,000", "abc"⟩ =
        some 1000 := by
  have hclose : cleanNumeric "abc" = none := by decide
  have hopen : cleanNumeric "1,000" = some 1000 := by
    simp +decide [cleanNumeric, stripCommas, parseDecimal, parseUnsigned,
      natOfDigits]
  have h := (c7_smart_selection
    ⟨20230101, "Treasury General Account", "1,000", "abc"⟩).2.1 hclose
  exact ⟨hclose, h.trans hopen⟩

end LiquidityDashboard

namespace LiquidityDashboard

/-- C8: the dates of the processed Treasury series and of the published
snapshot are strictly increasing with no duplicates, and when several raw
records share a date the kept value is the first occurrence under the
fixed sort order (the API's record order after filtering and value
selection). -/
theorem c8_monotone_dates_dedup (raw : List TreasuryRecord)
    (fred : List (Nat × FredRow))
    (hf : (fred.map Prod.fst).Pairwise (· < ·)) :
    ((fetchTreasuryProcess raw).map Prod.fst).Pairwise (· < ·) ∧
    (∀ out, runFromRaw raw fred = Except.ok out →
      (out.map OutRow.date).Pairwise (· < ·)) ∧
    (∀ d v, (d, v) ∈ fetchTreasuryProcess raw ↔
      (selectedRecords raw).find? (fun p => p.1 == d) = some (d, v)) := by
  refine ⟨fetchTreasuryProcess_keys_sorted raw, ?_, ?_⟩
  · intro out hok
    have hout : out = mergePipeline (fetchTreasuryProcess raw) fred := by
      unfold runFromRaw mainRun at hok
      by_cases h : fred.isEmpty
      · rw [if_pos h] at hok; cases hok
      · rw [if_neg h] at hok; exact (Except.ok.inj hok).symm
    subst hout
    exact mergePipeline_dates_sorted (fetchTreasuryProcess raw) fred hf
      (fetchTreasuryProcess_keys_sorted raw)
  · intro d v
    have hperm := List.perm_insertionSort keyLE (dedupFirst (selectedRecords raw))
    have hmem : (d, v) ∈ fetchTreasuryProcess raw ↔
        (d, v) ∈ dedupFirst (selectedRecords raw) := hperm.mem_iff
    rw [hmem]
    have := dedupGo_mem_iff (selectedRecords raw) [] d v
    simpa [dedupFirst] using this

/-- C8 witness: a concrete raw response with a duplicated date. -/
theorem c8_monotone_dates_dedup_witness :
    (([(20230101, (⟨some 1, some 0, some 2, some 0, some 0⟩ : FredRow)),
       (20230108, (⟨some 3, some 0, some 4, some 0, some 0⟩ : FredRow))].map
        Prod.fst).Pairwise (· < ·)) ∧
    (((fetchTreasuryProcess
        [⟨20230103, "Treasury General Account", "1", "7"⟩,
         ⟨20230103, "Treasury General Account", "2", "8"⟩,
         ⟨20230102, "Treasury General Account", "3", "9"⟩]).map
        Prod.fst).Pairwise (· < ·) ∧
      (∀ out, runFromRaw
          [⟨20230103, "Treasury General Account", "1", "7"⟩,
           ⟨20230103, "Treasury General Account", "2", "8"⟩,
           ⟨20230102, "Treasury General Account", "3", "9"⟩]
          [(20230101, ⟨some 1, some 0, some 2, some 0, some 0⟩),
           (20230108, ⟨some 3, some 0, some 4, some 0, some 0⟩)] =
          Except.ok out →
        (out.map OutRow.date).Pairwise (· < ·)) ∧
      (∀ d v, (d, v) ∈ fetchTreasuryProcess
          [⟨20230103, "Treasury General Account", "1", "7"⟩,
           ⟨20230103, "Treasury General Account", "2", "8"⟩,
           ⟨20230102, "Treasury General Account", "3", "9"⟩] ↔
        (selectedRecords
          [⟨20230103, "Treasury General Account", "1", "7"⟩,
           ⟨20230103, "Treasury General Account", "2", "8"⟩,
           ⟨20230102, "Treasury General Account", "3", "9"⟩]).find?
          (fun p => p.1 == d) = some (d, v))) :=
  ⟨by decide, c8_monotone_dates_dedup _ _ (by decide)⟩

/-- C9: running the pipeline twice on identical upstream responses yields
byte-identical serialized output; the embedded pipeline is a pure
function of the fetched data, with no randomized or nondeterministic
ordering anywhere in the merge. -/
theorem c9_byte_identical_reruns (tga1 tga2 : List (Nat × ℚ))
    (fred1 fred2 : List (Nat × FredRow))
    (ht : tga1 = tga2) (hf : fred1 = fred2) :
    serializeRun tga1 fred1 = serializeRun tga2 fred2 := by
  subst ht
  subst hf
  rfl

/-- C9 witness at a concrete repeated run. -/
theorem c9_byte_identical_reruns_witness :
    ([(20230101, (100 : ℚ))] = [(20230101, (100 : ℚ))]) ∧
      serializeRun [(20230101, 100)]
          [(20230101, ⟨some 1000, some 0, some 0, some 10, some 5⟩)] =
        serializeRun [(20230101, 100)]
          [(20230101, ⟨some 1000, some 0, some 0, some 10, some 5⟩)] :=
  ⟨rfl, c9_byte_identical_reruns _ _ _ _ rfl rfl⟩

/-- C10: whenever the pipeline writes an output file, every emitted
record holds exactly the seven keys `date`, `Net_Liquidity`,
`Fed_Assets`, `RRP`, `TGA_Daily`, `Liquidity_Facilities`, `Loans_Held`
in that order, with the cash-balance column published as `TGA_Daily`
carrying the reconciled `Final_TGA` value in both the daily and the
weekly-fallback branch. -/
theorem c10_record_keys (tga : List (Nat × ℚ)) (fred : List (Nat × FredRow))
    (out : List OutRow) (_hok : mainRun tga fred = Except.ok out) :
    ∀ rec ∈ toJson out, rec.map Prod.fst = outputKeys ∧
      ∃ r, r ∈ out ∧ rec.getD 4 ("", JVal.num 0) =
        ("TGA_Daily", JVal.num r.tgaDaily) := by
  intro rec hrec
  obtain ⟨r, hr, rfl⟩ := List.mem_map.mp hrec
  exact ⟨rfl, r, hr, rfl⟩

/-- C10 witness: the weekly-fallback branch (empty daily TGA) also emits
the seven fixed keys with the cash balance under `TGA_Daily`. -/
theorem c10_record_keys_witness :
    mainRun [] [(20230101, ⟨some 1000, some 0, some 2, some 10, some 5⟩)] =
      Except.ok [⟨20230101, -985, 1000, 0, 2000, 10, 5⟩] ∧
    ∀ rec ∈ toJson [(⟨20230101, -985, 1000, 0, 2000, 10, 5⟩ : OutRow)],
      rec.map Prod.fst = outputKeys ∧
      ∃ r, r ∈ [(⟨20230101, -985, 1000, 0, 2000, 10, 5⟩ : OutRow)] ∧
        rec.getD 4 ("", JVal.num 0) = ("TGA_Daily", JVal.num r.tgaDaily) := by
  have hok : mainRun []
      [(20230101, ⟨some 1000, some 0, some 2, some 10, some 5⟩)] =
      Except.ok [⟨20230101, -985, 1000, 0, 2000, 10, 5⟩] := by
    norm_num [mainRun, mergePipeline, weeklyRow, ffillAll, ffillGo, fillRow,
      fillna, rowComplete2, mkOut, netLiquidityCalc]
  exact ⟨hok, c10_record_keys _ _ _ hok⟩

end LiquidityDashboard
